import Mathlib

/-!
# Verification of the climatic-chamber control and persistence core

This file gives a shallow embedding, in Lean 4, of the control-and-persistence
core of the climatic-chamber firmware (controller state machines, median
filter, sensor ring buffer, time scaler, and the CRC-protected persistent
slot log), together with theorems settling the specification claims about it.

Modelling conventions:
- C unsigned integers are modelled as `Nat`; where 32-bit wraparound matters
  the reduction `% 2 ^ 32` is written explicitly.  Times (`millis()`) are
  modelled as mathematical naturals on a monotone timeline.
- C `float` sensor values are modelled as exact rationals (`ℚ`); every claim
  examined here only involves values on which binary floating point is exact
  (small integers and halves), so the idealisation is faithful for them.
- C `int` values are modelled as `Int`; C integer division (truncation
  toward zero) is written `Int.tdiv`.
- Byte memory (the persistent slot region) is a byte-addressed map
  `Nat → Nat`; fixed-size local arrays are `List Nat`, and fallible array
  indexing is modelled with `Option`.
- Global mutable state becomes explicit state records passed through the
  functions; `millis()` becomes an explicit `now` argument.
-/

namespace Chamber

/-! ## Time scaler (controller implementation, `scaled`)

Source: `SPEEDUP = Config::SPEEDUP_FACTOR = 10`;
`scaled(ms) = ms == 0 ? 0 : (ms / SPEEDUP == 0 ? 1 : ms / SPEEDUP)`. -/

/-- Speedup factor, `Config::SPEEDUP_FACTOR`. -/
def SPEEDUP : Nat := 10

/-- Scale milliseconds by `SPEEDUP`, never returning 0 for nonzero input. -/
def scaled (ms : Nat) : Nat :=
  if ms = 0 then 0
  else if ms / SPEEDUP = 0 then 1 else ms / SPEEDUP

/-! ## Circular sample buffer (`SensorRingBuffer<T, N>`)

The template class holds `buffer[N]`, a write index `head` and a logical
`count`.  `push` overwrites `buffer[head]`, advances `head` modulo `N` and
saturates `count` at `N`.  `getAll` linearises: when not full it emits
`N - count` zeros and then the data from index 0 (`start = 0` in the source);
when full it reads `N` entries starting at `head`.  Element type is taken as
`Int` (the claims exercise the integer instantiation). -/

structure SensorRingBuffer where
  buffer : List Int
  head : Nat
  count : Nat
deriving Repr, DecidableEq

/-- Fresh buffer of capacity `N`: all slots zeroed, `head = count = 0`
(the constructor's zeroing loop). -/
def SensorRingBuffer.init (N : Nat) : SensorRingBuffer :=
  ⟨List.replicate N 0, 0, 0⟩

/-- One `push(value)`: overwrite at `head`, advance `head` mod `N`,
saturating `count`. -/
def SensorRingBuffer.push (N : Nat) (s : SensorRingBuffer) (v : Int) :
    SensorRingBuffer :=
  ⟨s.buffer.set s.head v, (s.head + 1) % N,
   if s.count < N then s.count + 1 else s.count⟩

/-- Push a whole list of values in order. -/
def SensorRingBuffer.pushAll (N : Nat) (s : SensorRingBuffer) (vs : List Int) :
    SensorRingBuffer :=
  vs.foldl (fun t v => t.push N v) s

/-- The `getAll(out)` linearisation: zero padding then data oldest to newest
when not full, else `N` reads starting at `head`. -/
def SensorRingBuffer.getAll (N : Nat) (s : SensorRingBuffer) : List Int :=
  if s.count < N then
    List.replicate (N - s.count) 0 ++
      (List.range s.count).map (fun i => s.buffer.getD ((0 + i) % N) 0)
  else
    (List.range N).map (fun i => s.buffer.getD ((s.head + i) % N) 0)

/-- Well-formedness invariant of a capacity-`N` ring buffer, as established
by `init` and preserved by `push`: the backing store has length `N`, and
either the buffer has not wrapped yet (`count < N` and `head = count`) or it
is full (`count = N` and `head < N`). -/
def SensorRingBuffer.wf (N : Nat) (s : SensorRingBuffer) : Prop :=
  s.buffer.length = N ∧
    ((s.count < N ∧ s.head = s.count) ∨ (s.count = N ∧ s.head < N))

/-! ## Median filter (`sortArray`, `medianFloat`, `medianInt`)

Source constants: the controller's local `MEDIAN_SAMPLE_COUNT = 5`.  The two
median functions copy the first `n` input values into a local scratch array
`sorted[MEDIAN_SAMPLE_COUNT]`, bubble-sort its first `n` entries in place,
and read the middle (or the two middle) entries.  The scratch array has fixed
size 5, so every indexed access is modelled with `Option`: a `none` result
corresponds to an out-of-bounds array access in the C source. -/

/-- The controller's median sample count (scratch array size). -/
def MEDIAN_SAMPLE_COUNT : Nat := 5

/-- Bounds-checked array write `l[i] = v`. -/
def setChecked {α : Type} (l : List α) (i : Nat) (v : α) : Option (List α) :=
  if i < l.length then some (l.set i v) else none

/-- Bounds-checked array read `l[i]`. -/
def getChecked {α : Type} (l : List α) (i : Nat) : Option α :=
  l[i]?

/-- The copy loop `for i in 0..n-1: sorted[i] = values[i]`, with both the
read of `values[i]` and the write to the scratch array bounds-checked; any
out-of-bounds access aborts with `none`. -/
def copyScratch {α : Type} (values : List α) : Nat → List α → Option (List α)
  | 0, scratch => some scratch
  | k + 1, scratch =>
      match copyScratch values k scratch with
      | none => none
      | some s =>
          match getChecked values k with
          | none => none
          | some v => setChecked s k v

/-- One bounded bubble pass: the inner loop
`for j in 0..bound-1: if arr[j] > arr[j+1] swap`, expressed structurally on
the list (each recursive step consumes one comparison of the running element
against the next). -/
def bubblePass {α : Type} [LinearOrder α] : Nat → List α → List α
  | 0, l => l
  | _ + 1, [] => []
  | _ + 1, [a] => [a]
  | k + 1, a :: b :: t =>
      if b < a then b :: bubblePass k (a :: t) else a :: bubblePass k (b :: t)

/-- The outer loop `for i in 0..n-2` with shrinking inner bound `n - i - 1`:
`sortPasses k l` still has to run the passes with bounds `k, k-1, ..., 1`. -/
def sortPasses {α : Type} [LinearOrder α] : Nat → List α → List α
  | 0, l => l
  | k + 1, l => sortPasses k (bubblePass (k + 1) l)

/-- The source's `sortArray(arr, n)` on a whole list (`n = l.length`):
`n - 1` bubble passes with shrinking bounds. -/
def sortArray {α : Type} [LinearOrder α] (l : List α) : List α :=
  sortPasses (l.length - 1) l

/-- Shared body of `medianFloat` / `medianInt`: zero for `n = 0`; otherwise
copy `n` values into the size-5 scratch, sort its first `n` entries, and
combine the middle entries with `avg2` (even `n`) or take the single middle
entry (odd `n`).  All array accesses are bounds-checked. -/
def medianBody {α : Type} [LinearOrder α] (zero : α) (avg2 : α → α → α)
    (values : List α) (n : Nat) : Option α :=
  if n = 0 then some zero
  else
    match copyScratch values n (List.replicate MEDIAN_SAMPLE_COUNT zero) with
    | none => none
    | some scratch =>
        if n % 2 = 0 then
          match getChecked (sortArray (scratch.take n) ++ scratch.drop n)
                  (n / 2 - 1),
                getChecked (sortArray (scratch.take n) ++ scratch.drop n)
                  (n / 2) with
          | some a, some b => some (avg2 a b)
          | _, _ => none
        else
          getChecked (sortArray (scratch.take n) ++ scratch.drop n) (n / 2)

/-- `medianFloat(values, n)`; the C `float` values are modelled as exact
rationals, with even-median `(a + b) / 2.0f`. -/
def medianFloat (values : List ℚ) (n : Nat) : Option ℚ :=
  medianBody 0 (fun a b => (a + b) / 2) values n

/-- `medianInt(values, n)`; even-median `(a + b) / 2` in C `int` arithmetic
(truncating division, `Int.tdiv`). -/
def medianInt (values : List Int) (n : Nat) : Option Int :=
  medianBody 0 (fun a b => Int.tdiv (a + b) 2) values n

/-! ## Action sequencer and decision engine

Source: `ActionType`, `ActionStage`, `ActionContext`, the output-state
globals (`g_swirlerState`, `g_freshAirState`, `g_foggerState`,
`g_heaterState`), `startAction`, `actionTick` and `controllerEvaluate` in the
controller implementation.  The globals are gathered into one explicit
`CState`; `millis()` becomes the `now` argument (both `millis()` calls inside
one invocation happen in the same tick and are modelled as the same value).
The setpoint globals `g_co2_setpoint` / `g_rh_setpoint` become parameters of
`controllerEvaluate`. -/

/-- Real-time action durations and intervals (milliseconds before scaling). -/
def RT_CO2_SWIRL_MS : Nat := 10000

/-- CO2 settle duration. -/
def RT_CO2_SETTLE_MS : Nat := 20000

/-- RH-lowering fresh-air duration. -/
def RT_RH_DOWN_FRESHAIR_MS : Nat := 10000

/-- RH-lowering swirl duration. -/
def RT_RH_DOWN_SWIRL_MS : Nat := 10000

/-- RH-lowering settle duration. -/
def RT_RH_DOWN_SETTLE_MS : Nat := 20000

/-- RH-raising fogger duration. -/
def RT_RH_UP_FOGGER_MS : Nat := 5000

/-- RH-raising mix duration. -/
def RT_RH_UP_MIX_MS : Nat := 10000

/-- RH-raising settle duration. -/
def RT_RH_UP_SETTLE_MS : Nat := 120000

/-- Baseline ventilation fresh-air duration. -/
def RT_BASELINE_FRESHAIR_MS : Nat := 10000

/-- Baseline ventilation settle duration. -/
def RT_BASELINE_SETTLE_MS : Nat := 10000

/-- Anti-oscillation lockout window after an RH action. -/
def RT_RH_LOCKOUT_MS : Nat := 180000

/-- Baseline ventilation interval. -/
def RT_BASELINE_INTERVAL_MS : Nat := 600000

/-- RH hysteresis band, `RH_HYSTERESIS = 2.0f`. -/
def RH_HYSTERESIS : ℚ := 2

/-- Action kinds (`enum ActionType`). -/
inductive ActionType where
  | ACTION_NONE
  | ACTION_CO2
  | ACTION_RH_DOWN
  | ACTION_RH_UP
  | ACTION_BASELINE
deriving Repr, DecidableEq

/-- Action stages (`enum ActionStage`). -/
inductive ActionStage where
  | STAGE_IDLE
  | STAGE_CO2_SWIRL
  | STAGE_CO2_SETTLE
  | STAGE_RH_DOWN_FRESHAIR
  | STAGE_RH_DOWN_SWIRL
  | STAGE_RH_DOWN_SETTLE
  | STAGE_RH_UP_FOGGER
  | STAGE_RH_UP_MIX
  | STAGE_RH_UP_SETTLE
  | STAGE_BASELINE_FRESHAIR
  | STAGE_BASELINE_SETTLE
deriving Repr, DecidableEq

open ActionType ActionStage

/-- The controller's mutable state relevant to the sequencer: the
`ActionContext` fields plus the four actuator-output globals. -/
structure CState where
  currentAction : ActionType
  currentStage : ActionStage
  stageStartMs : Nat
  rhUpLockoutUntilMs : Nat
  rhDownLockoutUntilMs : Nat
  lastVentilationMs : Nat
  swirlerState : Bool
  freshAirState : Bool
  foggerState : Bool
  heaterState : Bool
deriving Repr, DecidableEq

/-- Initial state: the `ActionContext` constructor plus outputs all off. -/
def CState.init : CState :=
  ⟨ACTION_NONE, STAGE_IDLE, 0, 0, 0, 0, false, false, false, false⟩

/-- The `allOutputsOff()` helper: all four actuators off. -/
def allOutputsOff (s : CState) : CState :=
  { s with swirlerState := false, freshAirState := false,
           foggerState := false, heaterState := false }

/-- The `startAction(action)` function: rejected (pure no-op) if an action is
already running; otherwise set the action, record the stage start time, and
enter the action's first stage with its actuator output. -/
def startAction (action : ActionType) (now : Nat) (s : CState) : CState :=
  if s.currentAction ≠ ACTION_NONE then s
  else
    let s := { s with currentAction := action, stageStartMs := now }
    match action with
    | ACTION_CO2 =>
        { s with currentStage := STAGE_CO2_SWIRL, swirlerState := true }
    | ACTION_RH_DOWN =>
        { s with currentStage := STAGE_RH_DOWN_FRESHAIR,
                 freshAirState := true, lastVentilationMs := now }
    | ACTION_RH_UP =>
        { s with currentStage := STAGE_RH_UP_FOGGER, foggerState := true }
    | ACTION_BASELINE =>
        { s with currentStage := STAGE_BASELINE_FRESHAIR,
                 freshAirState := true, lastVentilationMs := now }
    | ACTION_NONE => s

/-- The `actionTick()` state machine step.  `elapsed = now - stageStartMs`
(the executions considered have monotone time, so the truncated `Nat`
subtraction agrees with the C unsigned subtraction). -/
def actionTick (now : Nat) (s : CState) : CState :=
  if s.currentAction = ACTION_NONE then s
  else
    let elapsed := now - s.stageStartMs
    match s.currentStage with
    | STAGE_CO2_SWIRL =>
        if elapsed ≥ scaled RT_CO2_SWIRL_MS then
          { s with swirlerState := false, currentStage := STAGE_CO2_SETTLE,
                   stageStartMs := now }
        else s
    | STAGE_CO2_SETTLE =>
        if elapsed ≥ scaled RT_CO2_SETTLE_MS then
          { allOutputsOff s with currentAction := ACTION_NONE,
                                 currentStage := STAGE_IDLE }
        else s
    | STAGE_RH_DOWN_FRESHAIR =>
        if elapsed ≥ scaled RT_RH_DOWN_FRESHAIR_MS then
          { s with freshAirState := false, swirlerState := true,
                   currentStage := STAGE_RH_DOWN_SWIRL, stageStartMs := now }
        else s
    | STAGE_RH_DOWN_SWIRL =>
        if elapsed ≥ scaled RT_RH_DOWN_SWIRL_MS then
          { s with swirlerState := false,
                   currentStage := STAGE_RH_DOWN_SETTLE, stageStartMs := now }
        else s
    | STAGE_RH_DOWN_SETTLE =>
        if elapsed ≥ scaled RT_RH_DOWN_SETTLE_MS then
          { allOutputsOff s with
              rhUpLockoutUntilMs := now + scaled RT_RH_LOCKOUT_MS,
              currentAction := ACTION_NONE, currentStage := STAGE_IDLE }
        else s
    | STAGE_RH_UP_FOGGER =>
        if elapsed ≥ scaled RT_RH_UP_FOGGER_MS then
          { s with swirlerState := true, freshAirState := true,
                   currentStage := STAGE_RH_UP_MIX, stageStartMs := now,
                   lastVentilationMs := now }
        else s
    | STAGE_RH_UP_MIX =>
        if elapsed ≥ scaled RT_RH_UP_MIX_MS then
          { allOutputsOff s with currentStage := STAGE_RH_UP_SETTLE,
                                 stageStartMs := now }
        else s
    | STAGE_RH_UP_SETTLE =>
        if elapsed ≥ scaled RT_RH_UP_SETTLE_MS then
          { allOutputsOff s with
              rhDownLockoutUntilMs := now + scaled RT_RH_LOCKOUT_MS,
              currentAction := ACTION_NONE, currentStage := STAGE_IDLE }
        else s
    | STAGE_BASELINE_FRESHAIR =>
        if elapsed ≥ scaled RT_BASELINE_FRESHAIR_MS then
          { s with freshAirState := false,
                   currentStage := STAGE_BASELINE_SETTLE, stageStartMs := now }
        else s
    | STAGE_BASELINE_SETTLE =>
        if elapsed ≥ scaled RT_BASELINE_SETTLE_MS then
          { allOutputsOff s with currentAction := ACTION_NONE,
                                 currentStage := STAGE_IDLE }
        else s
    | STAGE_IDLE => s

/-- A median-filtered reading handed to the decision engine (only the three
fields `controllerEvaluate` reads). -/
structure Reading where
  co2 : Int
  rh : ℚ
deriving Repr, DecidableEq

/-- The `controllerEvaluate(medianSensors)` decision ladder.  Returns
immediately when an action is running; otherwise: (1) CO2 strictly above the
setpoint starts the CO2 action; (2) RH above `setpoint + RH_HYSTERESIS` when
the RH_DOWN lockout has expired starts RH_DOWN; (3) RH below
`setpoint - RH_HYSTERESIS` when the RH_UP lockout has expired starts RH_UP;
(4) baseline ventilation when `lastVentilationMs > 0` and the scaled baseline
interval has elapsed since. -/
def controllerEvaluate (co2Setpoint : Int) (rhSetpoint : ℚ) (m : Reading)
    (now : Nat) (s : CState) : CState :=
  if s.currentAction ≠ ACTION_NONE then s
  else if m.co2 > co2Setpoint then startAction ACTION_CO2 now s
  else if m.rh > rhSetpoint + RH_HYSTERESIS ∧ now ≥ s.rhDownLockoutUntilMs then
    startAction ACTION_RH_DOWN now s
  else if m.rh < rhSetpoint - RH_HYSTERESIS ∧ now ≥ s.rhUpLockoutUntilMs then
    startAction ACTION_RH_UP now s
  else if s.lastVentilationMs > 0 ∧
      now - s.lastVentilationMs ≥ scaled RT_BASELINE_INTERVAL_MS then
    startAction ACTION_BASELINE now s
  else s

/-! ## Persistent slot log (`crc8`, `loadDataFromRingBuffer`,
`saveDataToRingBuffer`)

Source: `main.cpp`.  A `DataEntry` is 64 bytes: a little-endian `uint32`
sequence (bytes 0-3), ten little-endian `uint16` values (bytes 4-23), a CRC8
byte (byte 24) and 39 padding bytes.  The region holds
`RING_BUFFER_NUM_SLOTS = 100` slots of `RING_BUFFER_SLOT_SIZE = 64` bytes.
The backing byte memory (the RAM fallback array or the flash region) is
modelled as a byte-addressed map `Nat → Nat`; reading a slot yields its 64
bytes as a list, and the C pointer cast of a slot into a `DataEntry` becomes
byte-slice decoding of that list. -/

/-- Number of slots in the ring buffer region. -/
def RING_BUFFER_NUM_SLOTS : Nat := 100

/-- Slot size in bytes. -/
def RING_BUFFER_SLOT_SIZE : Nat := 64

/-- Total region size in bytes. -/
def RING_BUFFER_TOTAL_SIZE : Nat := RING_BUFFER_NUM_SLOTS * RING_BUFFER_SLOT_SIZE

/-- The all-ones `uint32` sentinel marking an unwritten sequence field. -/
def SEQ_SENTINEL : Nat := 4294967295

/-- One round of the CRC8 inner loop: shift left one bit (as a byte) and XOR
with the polynomial 0x07 when the top bit was set. -/
def crcRound (c : Nat) : Nat :=
  if 128 ≤ c then Nat.xor ((c * 2) % 256) 7 else (c * 2) % 256

/-- Eight rounds of the CRC8 inner loop. -/
def crcRounds : Nat → Nat → Nat
  | 0, c => c
  | k + 1, c => crcRounds k (crcRound c)

/-- The source's `crc8(data, len)`: initial value 0xFF, for each byte XOR it
in and run eight shift rounds. -/
def crc8 (data : List Nat) : Nat :=
  data.foldl (fun c b => crcRounds 8 (Nat.xor c b)) 255

/-- Decode a little-endian `uint32` from four bytes. -/
def decodeU32 (b0 b1 b2 b3 : Nat) : Nat :=
  b0 + 256 * b1 + 65536 * b2 + 16777216 * b3

/-- Encode a `uint32` value as four little-endian bytes. -/
def encodeU32 (v : Nat) : List Nat :=
  [v % 256, v / 256 % 256, v / 65536 % 256, v / 16777216 % 256]

/-- Encode a `uint16` value as two little-endian bytes. -/
def encodeU16 (v : Nat) : List Nat :=
  [v % 256, v / 256 % 256]

/-- The fully erased state of a byte memory: every byte reads 0xFF
(`memset(g_ringBuffer, 0xFF, ...)`, or erased flash). -/
def erasedRegion : Nat → Nat := fun _ => 255

/-- The 64 bytes of one slot of a region. -/
def slotBytes (region : Nat → Nat) (slot : Nat) : List Nat :=
  (List.range RING_BUFFER_SLOT_SIZE).map
    (fun j => region (RING_BUFFER_SLOT_SIZE * slot + j))

/-- Overwrite one slot of a region with the given 64 bytes (`memcpy` of a
`DataEntry` into the ring buffer memory). -/
def writeSlot (region : Nat → Nat) (slot : Nat) (bytes : List Nat) :
    Nat → Nat :=
  fun a =>
    if RING_BUFFER_SLOT_SIZE * slot ≤ a ∧
        a < RING_BUFFER_SLOT_SIZE * slot + RING_BUFFER_SLOT_SIZE then
      bytes.getD (a - RING_BUFFER_SLOT_SIZE * slot) 0
    else region a

/-- The `sequence` field of a slot (bytes 0-3, little endian). -/
def slotSequence (region : Nat → Nat) (slot : Nat) : Nat :=
  let b := slotBytes region slot
  decodeU32 (b.getD 0 0) (b.getD 1 0) (b.getD 2 0) (b.getD 3 0)

/-- The ten payload values of a slot (bytes 4-23, little-endian `uint16`s). -/
def slotValues (region : Nat → Nat) (slot : Nat) : List Nat :=
  let b := slotBytes region slot
  (List.range 10).map (fun i => b.getD (4 + 2 * i) 0 + 256 * b.getD (5 + 2 * i) 0)

/-- The stored CRC byte of a slot (byte 24). -/
def slotCrc (region : Nat → Nat) (slot : Nat) : Nat :=
  (slotBytes region slot).getD 24 0

/-- A slot passes the recovery scan's validity test: the recomputed CRC8 over
its first 24 bytes (sequence + payload) matches the stored CRC byte and its
sequence is not the all-ones sentinel. -/
def slotValid (region : Nat → Nat) (slot : Nat) : Prop :=
  crc8 ((slotBytes region slot).take 24) = slotCrc region slot ∧
    slotSequence region slot ≠ SEQ_SENTINEL

instance (region : Nat → Nat) (slot : Nat) : Decidable (slotValid region slot) := by
  unfold slotValid; infer_instance

/-- The scan loop body of `loadDataFromRingBuffer`, folded over a list of
slot indices, carrying `(highestSeq, highestSlot, found)` exactly as the
source does: skip CRC mismatches, skip the sentinel, and take a slot only
when its sequence strictly exceeds the running `highestSeq` (initially 0). -/
def scanLoop (region : Nat → Nat) :
    List Nat → Nat × Nat × Bool → Nat × Nat × Bool
  | [], acc => acc
  | slot :: rest, (highestSeq, highestSlot, found) =>
      if crc8 ((slotBytes region slot).take 24) ≠ slotCrc region slot then
        scanLoop region rest (highestSeq, highestSlot, found)
      else if slotSequence region slot = SEQ_SENTINEL then
        scanLoop region rest (highestSeq, highestSlot, found)
      else if slotSequence region slot > highestSeq then
        scanLoop region rest (slotSequence region slot, slot, true)
      else
        scanLoop region rest (highestSeq, highestSlot, found)

/-- The scanned window of the RAM fallback: the last 10 slots,
`start_slot = (NUM_SLOTS > 10) ? NUM_SLOTS - 10 : 0` up to `NUM_SLOTS - 1`. -/
def scanIndices : List Nat :=
  let start := if RING_BUFFER_NUM_SLOTS > 10 then RING_BUFFER_NUM_SLOTS - 10 else 0
  List.range' start (RING_BUFFER_NUM_SLOTS - start)

/-- The RAM-path `loadDataFromRingBuffer()`: scan the candidate window; if a
winner was found copy its payload into the live values and advance the write
cursor to the slot after it, otherwise zero the live values and reset the
cursor to 0.  Returns `(liveValues, writeCursor)`. -/
def loadDataFromRingBuffer (region : Nat → Nat) : List Nat × Nat :=
  if (scanLoop region scanIndices (0, 0, false)).2.2 then
    (slotValues region (scanLoop region scanIndices (0, 0, false)).2.1,
      ((scanLoop region scanIndices (0, 0, false)).2.1 + 1) %
        RING_BUFFER_NUM_SLOTS)
  else
    (List.replicate 10 0, 0)

/-- Build the 64 encoded bytes of a `DataEntry` for the given sequence number
and payload: after `memset(&entry, 0, sizeof(entry))` the padding is zero;
the CRC byte is `crc8` over the first 24 bytes (sequence and payload). -/
def encodeEntry (sequence : Nat) (values : List Nat) : List Nat :=
  (encodeU32 sequence ++ values.flatMap encodeU16) ++
    [crc8 (encodeU32 sequence ++ values.flatMap encodeU16)] ++
    List.replicate 39 0

/-- The next sequence number used by `saveDataToRingBuffer`: previous slot's
sequence plus one (reduced to 32 bits), or 1 when the previous slot holds the
sentinel. -/
def nextSequence (prevSeq : Nat) : Nat :=
  if prevSeq ≠ SEQ_SENTINEL then (prevSeq + 1) % 4294967296 else 1

/-- The RAM-fallback branch of `saveDataToRingBuffer()`: read the previous
slot's sequence (cursor minus one, wrapping), build the new entry, `memcpy`
it into the slot at the cursor, advance the cursor modulo the slot count and
clear the dirty flag.  Returns `(region, cursor, dirty)`. -/
def saveDataToRingBufferRam (region : Nat → Nat) (cursor : Nat)
    (values : List Nat) : (Nat → Nat) × Nat × Bool :=
  let prevSlot := if cursor = 0 then RING_BUFFER_NUM_SLOTS - 1 else cursor - 1
  let entry := encodeEntry (nextSequence (slotSequence region prevSlot)) values
  (writeSlot region cursor entry, (cursor + 1) % RING_BUFFER_NUM_SLOTS, false)

/-- The abstract block device behind `fb_read_slot` / `fb_write_slot` /
`fb_erase_region`: its byte contents plus failure oracles for the fallible
operations (a read of slot `i` fails when `readFails i`; the program
operation fails when `writeFails`). -/
structure FlashDevice where
  bytes : Nat → Nat
  readFails : Nat → Bool
  writeFails : Bool

/-- `fb_read_slot(slot, buffer, len)`: `none` models a failed read. -/
def fbReadSlot (dev : FlashDevice) (slot : Nat) : Option (List Nat) :=
  if dev.readFails slot then none else some (slotBytes dev.bytes slot)

/-- `fb_erase_region()`: the whole region returns to the erased 0xFF state. -/
def fbEraseRegion (dev : FlashDevice) : FlashDevice :=
  { dev with bytes := erasedRegion }

/-- `fb_write_slot(slot, buffer, len)`: on success the slot is programmed;
on failure the device is unchanged and `false` is returned. -/
def fbWriteSlot (dev : FlashDevice) (slot : Nat) (bytes : List Nat) :
    FlashDevice × Bool :=
  if dev.writeFails then (dev, false)
  else ({ dev with bytes := writeSlot dev.bytes slot bytes }, true)

/-- The flash branch of `saveDataToRingBuffer()`: read the previous slot for
its sequence (a failed read leaves the sentinel, so the sequence restarts at
1), build the entry, probe the destination slot and erase the whole region
when it is not fully 0xFF, program the entry (a reported failure is only
logged), then advance the cursor and clear the dirty flag unconditionally.
Returns `(device, cursor, dirty)`. -/
def saveDataToRingBufferFlash (dev : FlashDevice) (cursor : Nat)
    (values : List Nat) : FlashDevice × Nat × Bool :=
  let prevSlot := if cursor = 0 then RING_BUFFER_NUM_SLOTS - 1 else cursor - 1
  let prevSeq := match fbReadSlot dev prevSlot with
    | some b => decodeU32 (b.getD 0 0) (b.getD 1 0) (b.getD 2 0) (b.getD 3 0)
    | none => SEQ_SENTINEL
  let entry := encodeEntry (nextSequence prevSeq) values
  let dev1 := match fbReadSlot dev cursor with
    | some probe => if probe.all (fun b => b = 255) then dev else fbEraseRegion dev
    | none => dev
  let dev2 := (fbWriteSlot dev1 cursor entry).1
  (dev2, (cursor + 1) % RING_BUFFER_NUM_SLOTS, false)

/-- The storage module state touched by `saveDataToRingBuffer`: the
initialization and flash-availability flags, the RAM fallback region, the
flash device, the write cursor `g_currentSlot` and the `g_valuesDirty`
flag. -/
structure StorageState where
  storageInitialized : Bool
  flashAvailable : Bool
  ram : Nat → Nat
  dev : FlashDevice
  currentSlot : Nat
  valuesDirty : Bool

/-- The whole `saveDataToRingBuffer()`: no-op when storage is uninitialized;
otherwise the flash branch or the RAM-fallback branch, each of which ends by
advancing the cursor modulo the slot count and clearing the dirty flag. -/
def saveDataToRingBuffer (st : StorageState) (values : List Nat) :
    StorageState :=
  if ¬st.storageInitialized then st
  else if st.flashAvailable then
    let r := saveDataToRingBufferFlash st.dev st.currentSlot values
    { st with dev := r.1, currentSlot := r.2.1, valuesDirty := r.2.2 }
  else
    let r := saveDataToRingBufferRam st.ram st.currentSlot values
    { st with ram := r.1, currentSlot := r.2.1, valuesDirty := r.2.2 }

/-! ## Helper lemmas for the controller claims -/

/-- Starting any action from the idle state makes it the current action
(each switch branch stores the requested kind; the `ACTION_NONE` branch keeps
the stored `ACTION_NONE`). -/
theorem startAction_currentAction (a : ActionType) (now : Nat) (s : CState)
    (h : s.currentAction = ACTION_NONE) :
    (startAction a now s).currentAction = a := by
  cases a <;> simp [startAction, h]

/-- Unfolding of `controllerEvaluate` on an idle state: the guard at the top
is passed and the four-rule priority ladder is evaluated. -/
theorem controllerEvaluate_idle (csp : Int) (rsp : ℚ) (m : Reading)
    (now : Nat) (s : CState) (h : s.currentAction = ACTION_NONE) :
    controllerEvaluate csp rsp m now s =
      if m.co2 > csp then startAction ACTION_CO2 now s
      else if m.rh > rsp + RH_HYSTERESIS ∧ now ≥ s.rhDownLockoutUntilMs then
        startAction ACTION_RH_DOWN now s
      else if m.rh < rsp - RH_HYSTERESIS ∧ now ≥ s.rhUpLockoutUntilMs then
        startAction ACTION_RH_UP now s
      else if s.lastVentilationMs > 0 ∧
          now - s.lastVentilationMs ≥ scaled RT_BASELINE_INTERVAL_MS then
        startAction ACTION_BASELINE now s
      else s := by
  simp [controllerEvaluate, h]

/-! ## Claim C7: the time scaler -/

/-- Claim C7: `scaled 0 = 0`; for nonzero input the result is the integer
quotient by `SPEEDUP`, except that a zero quotient is replaced by 1, so a
nonzero duration never scales to zero. -/
theorem claim_C7 :
    scaled 0 = 0 ∧
    (∀ ms, ms ≠ 0 → ms / SPEEDUP ≠ 0 → scaled ms = ms / SPEEDUP) ∧
    (∀ ms, ms ≠ 0 → ms / SPEEDUP = 0 → scaled ms = 1) ∧
    (∀ ms, ms ≠ 0 → scaled ms ≠ 0) := by
  refine ⟨rfl, ?_, ?_, ?_⟩
  · intro ms h1 h2
    simp only [scaled, if_neg h1, if_neg h2]
  · intro ms h1 h2
    simp only [scaled, if_neg h1, if_pos h2]
  · intro ms h1
    simp only [scaled, if_neg h1]
    split
    · exact one_ne_zero
    · assumption

/-- Witness for C7 at concrete inputs 25 (quotient 2) and 5 (clamped to 1). -/
theorem claim_C7_witness : scaled 25 = 25 / SPEEDUP ∧ scaled 5 = 1 :=
  ⟨claim_C7.2.1 25 (by decide) (by decide), claim_C7.2.2.1 5 (by decide) (by decide)⟩

/-! ## Claim C3: the sequencer is non-preemptive -/

/-- Claim C3: whenever an action is active, `startAction` with any kind is a
pure no-op on the whole controller state (action context and actuator
outputs), and `controllerEvaluate` with any filtered reading, setpoints and
time is also a pure no-op, so an active action is never replaced. -/
theorem claim_C3 (s : CState) (now : Nat) (a : ActionType) (csp : Int)
    (rsp : ℚ) (m : Reading) (h : s.currentAction ≠ ACTION_NONE) :
    startAction a now s = s ∧ controllerEvaluate csp rsp m now s = s := by
  constructor
  · simp [startAction, h]
  · simp [controllerEvaluate, h]

/-- Witness for C3: a state in the middle of a CO2 action absorbs both a
start request for another action and an evaluation of an out-of-range
reading. -/
theorem claim_C3_witness :
    startAction ACTION_RH_UP 5000
        ⟨ACTION_CO2, STAGE_CO2_SWIRL, 100, 0, 0, 0, true, false, false, false⟩ =
      ⟨ACTION_CO2, STAGE_CO2_SWIRL, 100, 0, 0, 0, true, false, false, false⟩ ∧
    controllerEvaluate 800 95 ⟨2000, 99⟩ 5000
        ⟨ACTION_CO2, STAGE_CO2_SWIRL, 100, 0, 0, 0, true, false, false, false⟩ =
      ⟨ACTION_CO2, STAGE_CO2_SWIRL, 100, 0, 0, 0, true, false, false, false⟩ :=
  claim_C3 ⟨ACTION_CO2, STAGE_CO2_SWIRL, 100, 0, 0, 0, true, false, false, false⟩
    5000 ACTION_RH_UP 800 95 ⟨2000, 99⟩ (by decide)

/-! ## Claim C1: decision rule 1 (CO2)

The claim asserts that rule 1 compares against `setpoint + threshold`
(100 ppm), so that a filtered reading of 850 ppm with setpoint 800 requests
no action.  The source compares `medianSensors.co2 > g_co2_setpoint` with no
threshold (`Config::CO2::CONTROL_THRESHOLD` exists but is never used by the
decision ladder), so 850 ppm does request the CO2 action. -/

/-- Counterexample to claim C1 as stated: from the idle initial state with
CO2 setpoint 800 and a filtered CO2 reading of 850 ppm (above the setpoint
but not above setpoint + 100), rule 1 starts the CO2-reduction action. -/
theorem claim_C1_counterexample :
    (controllerEvaluate 800 95 ⟨850, 95⟩ 0 CState.init).currentAction =
      ACTION_CO2 ∧ (850 : Int) ≤ 800 + 100 := by
  constructor
  · norm_num +decide [controllerEvaluate, startAction, CState.init, RH_HYSTERESIS]
  · decide

/-- Claim C1 (amended): rule 1 uses no threshold.  With setpoint 800 both a
950 ppm and an 850 ppm filtered reading request the CO2-reduction action;
in general, from an idle state rule 1 requests the CO2 action exactly when
the filtered CO2 strictly exceeds the setpoint. -/
theorem claim_C1 :
    (controllerEvaluate 800 95 ⟨950, 95⟩ 0 CState.init).currentAction =
      ACTION_CO2 ∧
    (controllerEvaluate 800 95 ⟨850, 95⟩ 0 CState.init).currentAction =
      ACTION_CO2 ∧
    (∀ (s : CState) (now : Nat) (csp : Int) (rsp : ℚ) (m : Reading),
      s.currentAction = ACTION_NONE → m.co2 > csp →
      (controllerEvaluate csp rsp m now s).currentAction = ACTION_CO2) ∧
    (∀ (s : CState) (now : Nat) (csp : Int) (rsp : ℚ) (m : Reading),
      s.currentAction = ACTION_NONE → m.co2 ≤ csp →
      (controllerEvaluate csp rsp m now s).currentAction ≠ ACTION_CO2) := by
  refine
    ⟨by norm_num +decide [controllerEvaluate, startAction, CState.init, RH_HYSTERESIS],
     by norm_num +decide [controllerEvaluate, startAction, CState.init, RH_HYSTERESIS],
     ?_, ?_⟩
  · intro s now csp rsp m hidle hco2
    rw [controllerEvaluate_idle csp rsp m now s hidle, if_pos hco2]
    exact startAction_currentAction _ _ _ hidle
  · intro s now csp rsp m hidle hco2
    rw [controllerEvaluate_idle csp rsp m now s hidle,
      if_neg (not_lt.mpr hco2)]
    split
    · rw [startAction_currentAction _ _ _ hidle]; decide
    · split
      · rw [startAction_currentAction _ _ _ hidle]; decide
      · split
        · rw [startAction_currentAction _ _ _ hidle]; decide
        · rw [hidle]; decide

/-- Witness for the amended claim C1: both universally quantified rules
applied at the idle initial state with setpoint 800 and readings 801
(action) and 800 (no action). -/
theorem claim_C1_witness :
    (controllerEvaluate 800 95 ⟨801, 95⟩ 7 CState.init).currentAction =
      ACTION_CO2 ∧
    (controllerEvaluate 800 95 ⟨800, 95⟩ 7 CState.init).currentAction ≠
      ACTION_CO2 :=
  ⟨claim_C1.2.2.1 CState.init 7 800 95 ⟨801, 95⟩ rfl (by decide),
   claim_C1.2.2.2 CState.init 7 800 95 ⟨800, 95⟩ rfl (by decide)⟩

/-! ## Claim C2: lockout direction after an RH-lowering action

The claim asserts that after an RH-lowering action completes, a high RH
reading inside the lockout window does not start a new RH-lowering action.
In the source, completing `STAGE_RH_DOWN_SETTLE` sets `rhUpLockoutUntilMs`
(the RH-raising lockout); rule 2 checks only `rhDownLockoutUntilMs`, which
is untouched, so a high RH reading immediately starts another RH-lowering
action. -/

/-- Counterexample to claim C2 as stated: starting from the fresh context
(no lockouts), an RH reading of 99 % (setpoint 95, hysteresis 2) at t=1000
starts RH_DOWN; ticking through its three stages completes it at t=5000 and
sets the RH-raising lockout to 23000; evaluating the same 99 % reading at
t=6000 — inside the lockout window — starts a new RH-lowering action. -/
theorem claim_C2_counterexample :
    (controllerEvaluate 800 95 ⟨700, 99⟩ 1000 CState.init).currentAction =
      ACTION_RH_DOWN ∧
    (actionTick 5000 (actionTick 3000 (actionTick 2000
        (controllerEvaluate 800 95 ⟨700, 99⟩ 1000 CState.init)))).currentAction =
      ACTION_NONE ∧
    (actionTick 5000 (actionTick 3000 (actionTick 2000
        (controllerEvaluate 800 95 ⟨700, 99⟩ 1000 CState.init)))).rhUpLockoutUntilMs =
      23000 ∧
    (controllerEvaluate 800 95 ⟨700, 99⟩ 6000
      (actionTick 5000 (actionTick 3000 (actionTick 2000
        (controllerEvaluate 800 95 ⟨700, 99⟩ 1000 CState.init))))).currentAction =
      ACTION_RH_DOWN := by
  refine ⟨?_, ?_, ?_, ?_⟩ <;>
    norm_num +decide [controllerEvaluate, startAction, CState.init, RH_HYSTERESIS,
      actionTick, scaled, SPEEDUP, allOutputsOff, RT_RH_DOWN_FRESHAIR_MS,
      RT_RH_DOWN_SWIRL_MS, RT_RH_DOWN_SETTLE_MS, RT_RH_LOCKOUT_MS,
      RT_BASELINE_INTERVAL_MS]

/-- Claim C2 (amended): the lockout emitted by a completed RH-lowering
action applies to the opposite (RH-raising) action.  Completing
`STAGE_RH_DOWN_SETTLE` clears the action and sets the RH-raising lockout
deadline to `now + scaled lockout`; while the current time is inside that
deadline, an idle evaluation never starts an RH-raising action (whereas a
reading above `setpoint + hysteresis` starts a new RH-lowering action
whenever the RH-lowering lockout itself has expired). -/
theorem claim_C2 :
    (∀ (s : CState) (now : Nat),
      s.currentAction = ACTION_RH_DOWN → s.currentStage = STAGE_RH_DOWN_SETTLE →
      now - s.stageStartMs ≥ scaled RT_RH_DOWN_SETTLE_MS →
      (actionTick now s).currentAction = ACTION_NONE ∧
      (actionTick now s).rhUpLockoutUntilMs = now + scaled RT_RH_LOCKOUT_MS) ∧
    (∀ (s : CState) (now : Nat) (csp : Int) (rsp : ℚ) (m : Reading),
      s.currentAction = ACTION_NONE → now < s.rhUpLockoutUntilMs →
      (controllerEvaluate csp rsp m now s).currentAction ≠ ACTION_RH_UP) ∧
    (∀ (s : CState) (now : Nat) (csp : Int) (rsp : ℚ) (m : Reading),
      s.currentAction = ACTION_NONE → m.co2 ≤ csp →
      m.rh > rsp + RH_HYSTERESIS → now ≥ s.rhDownLockoutUntilMs →
      (controllerEvaluate csp rsp m now s).currentAction = ACTION_RH_DOWN) := by
  refine ⟨?_, ?_, ?_⟩
  · intro s now hact hstage helapsed
    simp [actionTick, hact, hstage, allOutputsOff, helapsed]
  · intro s now csp rsp m hidle hlock
    rw [controllerEvaluate_idle csp rsp m now s hidle]
    split
    · rw [startAction_currentAction _ _ _ hidle]; decide
    · split
      · rw [startAction_currentAction _ _ _ hidle]; decide
      · rw [if_neg (fun hc => absurd hc.2 (not_le.mpr hlock))]
        split
        · rw [startAction_currentAction _ _ _ hidle]; decide
        · rw [hidle]; decide
  · intro s now csp rsp m hidle hco2 hrh hlock
    rw [controllerEvaluate_idle csp rsp m now s hidle,
      if_neg (not_lt.mpr hco2), if_pos ⟨hrh, hlock⟩]
    exact startAction_currentAction _ _ _ hidle

/-- Witness for the amended claim C2, run on the concrete execution of the
counterexample: completing the settle stage at t=5000 clears the action and
arms the RH-raising lockout, and at t=6000 (inside the window) a low RH
reading does not start RH_UP while a high reading restarts RH_DOWN. -/
theorem claim_C2_witness :
    ((actionTick 5000
        ⟨ACTION_RH_DOWN, STAGE_RH_DOWN_SETTLE, 3000, 0, 0, 1000,
          false, false, false, false⟩).currentAction = ACTION_NONE ∧
      (actionTick 5000
        ⟨ACTION_RH_DOWN, STAGE_RH_DOWN_SETTLE, 3000, 0, 0, 1000,
          false, false, false, false⟩).rhUpLockoutUntilMs =
        5000 + scaled RT_RH_LOCKOUT_MS) ∧
    (controllerEvaluate 800 95 ⟨700, 90⟩ 6000
        ⟨ACTION_NONE, STAGE_IDLE, 3000, 23000, 0, 1000,
          false, false, false, false⟩).currentAction ≠ ACTION_RH_UP ∧
    (controllerEvaluate 800 95 ⟨700, 99⟩ 6000
        ⟨ACTION_NONE, STAGE_IDLE, 3000, 23000, 0, 1000,
          false, false, false, false⟩).currentAction = ACTION_RH_DOWN :=
  ⟨claim_C2.1 ⟨ACTION_RH_DOWN, STAGE_RH_DOWN_SETTLE, 3000, 0, 0, 1000,
      false, false, false, false⟩ 5000 rfl rfl (by decide),
   claim_C2.2.1 ⟨ACTION_NONE, STAGE_IDLE, 3000, 23000, 0, 1000,
      false, false, false, false⟩ 6000 800 95 ⟨700, 90⟩ rfl (by decide),
   claim_C2.2.2 ⟨ACTION_NONE, STAGE_IDLE, 3000, 23000, 0, 1000,
      false, false, false, false⟩ 6000 800 95 ⟨700, 99⟩ rfl (by decide)
      (by norm_num [RH_HYSTERESIS]) (by decide)⟩

/-! ## Claim C6: every save advances the cursor and clears the dirty flag -/

/-- Claim C6: with storage initialized, `saveDataToRingBuffer` always leaves
the write cursor advanced by exactly one slot modulo the slot count and the
dirty flag cleared — on the flash branch this holds for every device
behaviour, including a failed program operation, so a pending value is never
retried. -/
theorem claim_C6 (st : StorageState) (values : List Nat)
    (h : st.storageInitialized = true) :
    (saveDataToRingBuffer st values).currentSlot =
      (st.currentSlot + 1) % RING_BUFFER_NUM_SLOTS ∧
    (saveDataToRingBuffer st values).valuesDirty = false := by
  unfold saveDataToRingBuffer
  rw [if_neg (by simp [h])]
  split
  · exact ⟨rfl, rfl⟩
  · exact ⟨rfl, rfl⟩

/-- Witness for C6: a flash-backed state whose device reports a write
failure (`writeFails = true`) still ends with the cursor moved from slot 42
to slot 43 and the dirty flag cleared. -/
theorem claim_C6_witness :
    (saveDataToRingBuffer
      ⟨true, true, erasedRegion, ⟨erasedRegion, fun _ => false, true⟩,
        42, true⟩ [1, 2, 3, 4, 5, 6, 7, 8, 9, 10]).currentSlot =
      (42 + 1) % RING_BUFFER_NUM_SLOTS ∧
    (saveDataToRingBuffer
      ⟨true, true, erasedRegion, ⟨erasedRegion, fun _ => false, true⟩,
        42, true⟩ [1, 2, 3, 4, 5, 6, 7, 8, 9, 10]).valuesDirty = false :=
  claim_C6 _ _ rfl

/-! ## Claim C5: save/read round trip on the RAM-fallback path -/

/-- Each value contributes exactly two payload bytes. -/
theorem length_flatMap_encodeU16 (values : List Nat) :
    (values.flatMap encodeU16).length = 2 * values.length := by
  induction values with
  | nil => rfl
  | cons a t ih =>
      simp only [List.flatMap_cons, List.length_append, ih, encodeU16,
        List.length_cons, List.length_nil, List.length_cons]
      omega

/-- Length of an encoded entry: 4 sequence bytes, 20 payload bytes, the CRC
byte and 39 padding bytes. -/
theorem encodeEntry_length (sequence : Nat) (values : List Nat)
    (hv : values.length = 10) :
    (encodeEntry sequence values).length = RING_BUFFER_SLOT_SIZE := by
  unfold encodeEntry
  simp only [List.length_append, length_flatMap_encodeU16, hv, List.length_cons,
    List.length_nil, List.length_replicate, encodeU32]
  decide

/-- Positional lookup past a prefix of an append lands in the suffix. -/
theorem getD_append_shift (pre post : List Nat) (j : Nat) :
    (pre ++ post).getD (pre.length + j) 0 = post.getD j 0 := by
  rw [List.getD_eq_getElem?_getD, List.getElem?_append_right (Nat.le_add_right _ _)]
  simp [List.getD_eq_getElem?_getD]

/-- Positional lookup inside the prefix of an append stays in the prefix. -/
theorem getD_append_front (pre post : List Nat) (j : Nat)
    (h : j < pre.length) :
    (pre ++ post).getD j 0 = pre.getD j 0 := by
  rw [List.getD_eq_getElem?_getD, List.getElem?_append_left h,
    ← List.getD_eq_getElem?_getD]

/-- Each pair of payload bytes decodes back to its `uint16` value. -/
theorem flatMap_encodeU16_getD (values : List Nat) (i : Nat)
    (hi : i < values.length) :
    (values.flatMap encodeU16).getD (2 * i) 0 = values.getD i 0 % 256 ∧
    (values.flatMap encodeU16).getD (2 * i + 1) 0 = values.getD i 0 / 256 % 256 := by
  induction values generalizing i with
  | nil => simp at hi
  | cons a t ih =>
      cases i with
      | zero => simp [encodeU16]
      | succ j =>
          have hj : j < t.length := by simpa using hi
          have h2 : 2 * (j + 1) = (2 * j) + 2 := by ring
          have h3 : 2 * (j + 1) + 1 = (2 * j + 1) + 2 := by ring
          simp only [List.flatMap_cons, encodeU16, h2, h3, List.getD_cons_succ,
            List.cons_append, List.getD]
          exact ih j hj

/-- Mapping positional lookup over `range` of the length recovers a list. -/
theorem map_range_getD {α : Type} (l : List α) (d : α) :
    (List.range l.length).map (fun i => l.getD i d) = l := by
  induction l with
  | nil => simp
  | cons a t ih =>
      rw [List.length_cons, List.range_succ_eq_map]
      simp only [List.map_cons, List.map_map]
      simp only [List.getD_cons_zero, List.cons.injEq, true_and]
      calc (List.range t.length).map
            ((fun i => List.getD (a :: t) i d) ∘ Nat.succ)
          = (List.range t.length).map (fun i => t.getD i d) := by
            apply List.map_congr_left
            intro i _
            simp
        _ = t := ih

/-- Reading back the very slot just written returns exactly the written
bytes, provided the entry is one slot long. -/
theorem slotBytes_writeSlot_self (region : Nat → Nat) (slot : Nat)
    (bytes : List Nat) (hb : bytes.length = RING_BUFFER_SLOT_SIZE) :
    slotBytes (writeSlot region slot bytes) slot = bytes := by
  unfold slotBytes writeSlot
  calc (List.range RING_BUFFER_SLOT_SIZE).map (fun j =>
          if RING_BUFFER_SLOT_SIZE * slot ≤ RING_BUFFER_SLOT_SIZE * slot + j ∧
              RING_BUFFER_SLOT_SIZE * slot + j <
                RING_BUFFER_SLOT_SIZE * slot + RING_BUFFER_SLOT_SIZE then
            bytes.getD (RING_BUFFER_SLOT_SIZE * slot + j -
              RING_BUFFER_SLOT_SIZE * slot) 0
          else region (RING_BUFFER_SLOT_SIZE * slot + j))
      = (List.range RING_BUFFER_SLOT_SIZE).map (fun j => bytes.getD j 0) := by
        apply List.map_congr_left
        intro j hj
        have hjlt := List.mem_range.mp hj
        rw [if_pos (by omega)]
        congr 1
        omega
    _ = bytes := by rw [← hb]; exact map_range_getD bytes 0

/-- Claim C5: on the RAM-fallback write path, saving any 10-value payload to
any slot and reading the same slot back yields a record whose recomputed
CRC8 over the 24 sequence+payload bytes equals the stored CRC byte, and
whose decoded payload equals the original payload exactly. -/
theorem claim_C5 (region : Nat → Nat) (cursor : Nat) (values : List Nat)
    (hv : values.length = 10)
    (hvals : ∀ v ∈ values, v < 65536) :
    crc8 ((slotBytes (saveDataToRingBufferRam region cursor values).1 cursor).take 24) =
      slotCrc (saveDataToRingBufferRam region cursor values).1 cursor ∧
    slotValues (saveDataToRingBufferRam region cursor values).1 cursor = values := by
  set seq := nextSequence (slotSequence region
    (if cursor = 0 then RING_BUFFER_NUM_SLOTS - 1 else cursor - 1)) with hseq
  have hfst : (saveDataToRingBufferRam region cursor values).1 =
      writeSlot region cursor (encodeEntry seq values) := rfl
  have hslot : slotBytes (saveDataToRingBufferRam region cursor values).1 cursor =
      encodeEntry seq values := by
    rw [hfst]
    exact slotBytes_writeSlot_self _ _ _ (encodeEntry_length _ _ hv)
  set body := encodeU32 seq ++ values.flatMap encodeU16 with hbody
  have hlen4 : (encodeU32 seq).length = 4 := by simp [encodeU32]
  have hfm : (values.flatMap encodeU16).length = 20 := by
    rw [length_flatMap_encodeU16, hv]
  have hbodylen : body.length = 24 := by
    rw [hbody, List.length_append, hlen4, hfm]
  have hentry : encodeEntry seq values =
      body ++ (crc8 body :: List.replicate 39 0) := by
    rw [hbody]
    unfold encodeEntry
    rw [List.append_assoc]
    rfl
  constructor
  · unfold slotCrc
    rw [hslot, hentry, List.take_left' hbodylen, List.getD_eq_getElem?_getD,
      List.getElem?_append_right (by omega), hbodylen]
    simp
  · unfold slotValues
    rw [hslot]
    have hget : ∀ i, i < 10 →
        (encodeEntry seq values).getD (4 + 2 * i) 0 +
          256 * (encodeEntry seq values).getD (5 + 2 * i) 0 = values.getD i 0 := by
      intro i hi
      have hpay := flatMap_encodeU16_getD values i (by omega)
      have hsplit : encodeEntry seq values =
          encodeU32 seq ++ (values.flatMap encodeU16 ++
            (crc8 body :: List.replicate 39 0)) := by
        rw [hentry, hbody, List.append_assoc]
      have e1 : (encodeEntry seq values).getD (4 + 2 * i) 0 =
          (values.flatMap encodeU16).getD (2 * i) 0 := by
        rw [hsplit, show 4 + 2 * i = (encodeU32 seq).length + 2 * i by rw [hlen4],
          getD_append_shift, getD_append_front _ _ _ (by omega)]
      have e2 : (encodeEntry seq values).getD (5 + 2 * i) 0 =
          (values.flatMap encodeU16).getD (2 * i + 1) 0 := by
        rw [hsplit,
          show 5 + 2 * i = (encodeU32 seq).length + (2 * i + 1) by rw [hlen4]; omega,
          getD_append_shift, getD_append_front _ _ _ (by omega)]
      rw [e1, e2, hpay.1, hpay.2]
      have hvlt : values.getD i 0 < 65536 := by
        apply hvals
        rw [List.getD_eq_getElem values 0 (by omega)]
        exact List.getElem_mem (by omega)
      omega
    calc (List.range 10).map (fun i =>
            (encodeEntry seq values).getD (4 + 2 * i) 0 +
              256 * (encodeEntry seq values).getD (5 + 2 * i) 0)
        = (List.range 10).map (fun i => values.getD i 0) := by
          apply List.map_congr_left
          intro i hi
          exact hget i (List.mem_range.mp hi)
      _ = values := by rw [← hv]; exact map_range_getD values 0

/-- Witness for C5: saving `[1,...,10]` into slot 0 of the fully erased RAM
region round-trips: the recomputed CRC matches and the payload decodes back
exactly. -/
theorem claim_C5_witness :
    crc8 ((slotBytes (saveDataToRingBufferRam erasedRegion 0
        [1, 2, 3, 4, 5, 6, 7, 8, 9, 10]).1 0).take 24) =
      slotCrc (saveDataToRingBufferRam erasedRegion 0
        [1, 2, 3, 4, 5, 6, 7, 8, 9, 10]).1 0 ∧
    slotValues (saveDataToRingBufferRam erasedRegion 0
        [1, 2, 3, 4, 5, 6, 7, 8, 9, 10]).1 0 = [1, 2, 3, 4, 5, 6, 7, 8, 9, 10] :=
  claim_C5 erasedRegion 0 [1, 2, 3, 4, 5, 6, 7, 8, 9, 10] (by decide) (by decide)

/-! ## Claim C4: recovery selects the highest-sequence valid slot -/

/-- Invariant carried by the recovery scan over the processed index list
`done`: when a winner has been found it is a processed valid slot whose
sequence (at least 1) is the running maximum over all processed valid slots;
when no winner has been found, every processed valid slot has sequence 0
(such slots can never win because the scan starts from `highestSeq = 0` and
requires a strict increase). -/
def scanInv (region : Nat → Nat) (done : List Nat)
    (acc : Nat × Nat × Bool) : Prop :=
  (acc.2.2 = true →
    acc.2.1 ∈ done ∧ slotValid region acc.2.1 ∧
    slotSequence region acc.2.1 = acc.1 ∧ 1 ≤ acc.1 ∧
    ∀ i ∈ done, slotValid region i → slotSequence region i ≤ acc.1) ∧
  (acc.2.2 = false →
    acc.1 = 0 ∧ acc.2.1 = 0 ∧
    ∀ i ∈ done, slotValid region i → slotSequence region i = 0)

/-- Processing a slot that is skipped (invalid CRC or sentinel) preserves the
scan invariant. -/
theorem scanInv_extend_invalid (region : Nat → Nat) (done : List Nat)
    (acc : Nat × Nat × Bool) (slot : Nat) (h : scanInv region done acc)
    (hinv : ¬ slotValid region slot) :
    scanInv region (done ++ [slot]) acc := by
  obtain ⟨h1, h2⟩ := h
  constructor
  · intro hf
    obtain ⟨hm, hv, hs, hg, hle⟩ := h1 hf
    refine ⟨List.mem_append_left _ hm, hv, hs, hg, ?_⟩
    intro i hi hvi
    rcases List.mem_append.mp hi with hd | hs2
    · exact hle i hd hvi
    · rw [List.mem_singleton.mp hs2] at hvi
      exact absurd hvi hinv
  · intro hf
    obtain ⟨hz, hsl, hall⟩ := h2 hf
    refine ⟨hz, hsl, ?_⟩
    intro i hi hvi
    rcases List.mem_append.mp hi with hd | hs2
    · exact hall i hd hvi
    · rw [List.mem_singleton.mp hs2] at hvi
      exact absurd hvi hinv

/-- Processing a valid slot whose sequence does not exceed the running
maximum preserves the scan invariant with an unchanged accumulator. -/
theorem scanInv_extend_notgt (region : Nat → Nat) (done : List Nat)
    (acc : Nat × Nat × Bool) (slot : Nat) (h : scanInv region done acc)
    (_hval : slotValid region slot)
    (hng : ¬ slotSequence region slot > acc.1) :
    scanInv region (done ++ [slot]) acc := by
  obtain ⟨h1, h2⟩ := h
  constructor
  · intro hf
    obtain ⟨hm, hv, hs, hg, hle⟩ := h1 hf
    refine ⟨List.mem_append_left _ hm, hv, hs, hg, ?_⟩
    intro i hi hvi
    rcases List.mem_append.mp hi with hd | hs2
    · exact hle i hd hvi
    · rw [List.mem_singleton.mp hs2]
      omega
  · intro hf
    obtain ⟨hz, hsl, hall⟩ := h2 hf
    refine ⟨hz, hsl, ?_⟩
    intro i hi hvi
    rcases List.mem_append.mp hi with hd | hs2
    · exact hall i hd hvi
    · rw [List.mem_singleton.mp hs2]
      omega

/-- Processing a valid slot that strictly beats the running maximum makes it
the new winner and preserves the scan invariant. -/
theorem scanInv_extend_take (region : Nat → Nat) (done : List Nat)
    (acc : Nat × Nat × Bool) (slot : Nat) (h : scanInv region done acc)
    (hval : slotValid region slot)
    (hgt : slotSequence region slot > acc.1) :
    scanInv region (done ++ [slot]) (slotSequence region slot, slot, true) := by
  obtain ⟨h1, h2⟩ := h
  constructor
  · intro _
    refine ⟨List.mem_append_right _ (List.mem_singleton_self slot), hval, rfl,
      by omega, ?_⟩
    intro i hi hvi
    rcases List.mem_append.mp hi with hd | hs2
    · cases hfound : acc.2.2
      · have := (h2 hfound).2.2 i hd hvi
        omega
      · have := (h1 hfound).2.2.2.2 i hd hvi
        omega
    · rw [List.mem_singleton.mp hs2]
  · intro hf
    simp at hf

/-- The scan loop preserves the invariant over any index list. -/
theorem scanLoop_inv (region : Nat → Nat) (idxs : List Nat) :
    ∀ (done : List Nat) (acc : Nat × Nat × Bool), scanInv region done acc →
      scanInv region (done ++ idxs) (scanLoop region idxs acc) := by
  induction idxs with
  | nil =>
      intro done acc h
      simpa using h
  | cons slot rest ih =>
      intro done acc h
      obtain ⟨hSeq, hSlot, found⟩ := acc
      have hre : done ++ slot :: rest = (done ++ [slot]) ++ rest := by simp
      rw [hre]
      by_cases hc : crc8 ((slotBytes region slot).take 24) = slotCrc region slot
      · by_cases hsent : slotSequence region slot = SEQ_SENTINEL
        · rw [scanLoop, if_neg (by simpa using hc), if_pos hsent]
          exact ih _ _ (scanInv_extend_invalid region done _ slot h
            (fun hv => hv.2 hsent))
        · by_cases hgt : slotSequence region slot > hSeq
          · rw [scanLoop, if_neg (by simpa using hc), if_neg hsent, if_pos hgt]
            exact ih _ _ (scanInv_extend_take region done _ slot h ⟨hc, hsent⟩ hgt)
          · rw [scanLoop, if_neg (by simpa using hc), if_neg hsent, if_neg hgt]
            exact ih _ _ (scanInv_extend_notgt region done _ slot h ⟨hc, hsent⟩ hgt)
      · rw [scanLoop, if_pos hc]
        exact ih _ _ (scanInv_extend_invalid region done _ slot h
          (fun hv => hc hv.1))

/-- Claim C4 (amended): for every contents of the slot region, if the
scanned window contains a valid slot `w` (CRC match, non-sentinel sequence)
whose sequence is at least 1 and strictly above every other scanned valid
slot's sequence, recovery selects `w`: the live values become its decoded
payload and the write cursor moves to the slot after it modulo the slot
count.  If every scanned valid slot has sequence 0 (in particular if there
is none), the live values are all zero and the cursor is 0 — a valid slot
with sequence 0 is never selected, because the scan starts from
`highestSeq = 0` and requires a strict increase. -/
theorem claim_C4 (region : Nat → Nat) :
    (∀ w ∈ scanIndices, slotValid region w → 1 ≤ slotSequence region w →
      (∀ i ∈ scanIndices, slotValid region i → i ≠ w →
        slotSequence region i < slotSequence region w) →
      loadDataFromRingBuffer region =
        (slotValues region w, (w + 1) % RING_BUFFER_NUM_SLOTS)) ∧
    ((∀ i ∈ scanIndices, slotValid region i → slotSequence region i = 0) →
      loadDataFromRingBuffer region = (List.replicate 10 0, 0)) := by
  have hbase : scanInv region [] (0, 0, false) := by
    constructor
    · intro hf
      simp at hf
    · intro _
      exact ⟨rfl, rfl, fun i hi => absurd hi (List.not_mem_nil i)⟩
  have hinv := scanLoop_inv region scanIndices [] (0, 0, false) hbase
  rw [List.nil_append] at hinv
  constructor
  · intro w hw hvalid hseq1 hmax
    cases hfound : (scanLoop region scanIndices (0, 0, false)).2.2
    · exfalso
      have := (hinv.2 hfound).2.2 w hw hvalid
      omega
    · obtain ⟨hmem, hval, hseqeq, hge1, hmax2⟩ := hinv.1 hfound
      have hwin : (scanLoop region scanIndices (0, 0, false)).2.1 = w := by
        by_contra hne
        have h1 := hmax _ hmem hval hne
        have h2 := hmax2 w hw hvalid
        omega
      unfold loadDataFromRingBuffer
      rw [if_pos hfound, hwin]
  · intro hall
    cases hfound : (scanLoop region scanIndices (0, 0, false)).2.2
    · unfold loadDataFromRingBuffer
      rw [if_neg (by rw [hfound]; exact Bool.false_ne_true)]
    · exfalso
      obtain ⟨hmem, hval, hseqeq, hge1, _⟩ := hinv.1 hfound
      have := hall _ hmem hval
      omega

/-- A region that is fully erased except for one programmed entry with
sequence 3 in slot 97, used to exercise the recovery theorem. -/
def recoveryRegion : Nat → Nat :=
  writeSlot erasedRegion 97 (encodeEntry 3 [9, 8, 7, 6, 5, 4, 3, 2, 1, 0])

set_option maxRecDepth 8000 in
/-- Witness for the amended claim C4: on `recoveryRegion` recovery selects
slot 97 and moves the cursor to slot 98. -/
theorem claim_C4_witness :
    loadDataFromRingBuffer recoveryRegion =
      (slotValues recoveryRegion 97, (97 + 1) % RING_BUFFER_NUM_SLOTS) :=
  (claim_C4 recoveryRegion).1 97 (by decide) (by decide) (by decide) (by decide)

/-- A slot whose stored CRC correctly covers a sequence number of 0 and the
payload `[7,0,...,0]`. -/
def seqZeroSlot : List Nat :=
  [0, 0, 0, 0, 7, 0] ++ List.replicate 18 0 ++
    [crc8 ([0, 0, 0, 0, 7, 0] ++ List.replicate 18 0)] ++ List.replicate 39 0

/-- A region that is fully erased except that scanned slot 95 holds a
CRC-valid, non-sentinel entry with sequence number 0. -/
def seqZeroRegion : Nat → Nat :=
  writeSlot erasedRegion 95 seqZeroSlot

set_option maxRecDepth 8000 in
/-- Counterexample to claim C4 as stated: slot 95 of `seqZeroRegion` is a
scanned, CRC-valid, non-sentinel slot (trivially the one with the strictly
highest sequence number among the scanned candidates) with payload
`[7,0,...,0]`, yet recovery ignores it: the live values stay all zero and
the cursor resets to 0 instead of becoming its payload and slot 96. -/
theorem claim_C4_counterexample :
    slotValid seqZeroRegion 95 ∧ 95 ∈ scanIndices ∧
    (∀ i ∈ scanIndices, slotValid seqZeroRegion i → i = 95) ∧
    slotValues seqZeroRegion 95 = [7, 0, 0, 0, 0, 0, 0, 0, 0, 0] ∧
    loadDataFromRingBuffer seqZeroRegion = (List.replicate 10 0, 0) := by
  refine ⟨by decide, by decide, by decide, by decide, by decide⟩

/-! ## Claim C8: the circular sample buffer -/

/-- Counterexample to claim C8 as stated: five pushes `[10,20,30,40,50]`
into a fresh capacity-5 buffer exactly fill it, so linearising yields
`[10,20,30,40,50]` — the oldest value 10 is still present and the output
does not begin with `[20,30,40,50]` as the claim asserts. -/
theorem claim_C8_counterexample :
    (SensorRingBuffer.pushAll 5 (SensorRingBuffer.init 5)
        [10, 20, 30, 40, 50]).getAll 5 = [10, 20, 30, 40, 50] ∧
    ((SensorRingBuffer.pushAll 5 (SensorRingBuffer.init 5)
        [10, 20, 30, 40, 50]).getAll 5).take 4 ≠ [20, 30, 40, 50] := by
  refine ⟨by decide, by decide⟩

/-- Claim C8 (amended): pushing `[10,20]` into a fresh capacity-5 buffer and
linearising yields `[0,0,0,10,20]`; after pushes `30,40,50` the buffer is
exactly full and linearises to `[10,20,30,40,50]`; one further push `60`
overwrites the oldest slot, giving `[20,30,40,50,60]`.  In general, for
every well-formed capacity-5 buffer state: linearisation returns exactly 5
elements, is zero-padded in the oldest positions when fewer than 5 pushes
have occurred, and one push shifts the oldest element out and appends the
new value at the newest end; pushing preserves well-formedness. -/
theorem claim_C8 :
    (SensorRingBuffer.pushAll 5 (SensorRingBuffer.init 5) [10, 20]).getAll 5 =
      [0, 0, 0, 10, 20] ∧
    (SensorRingBuffer.pushAll 5 (SensorRingBuffer.init 5)
        [10, 20, 30, 40, 50]).getAll 5 = [10, 20, 30, 40, 50] ∧
    (SensorRingBuffer.pushAll 5 (SensorRingBuffer.init 5)
        [10, 20, 30, 40, 50, 60]).getAll 5 = [20, 30, 40, 50, 60] ∧
    (∀ s : SensorRingBuffer, s.wf 5 →
      (s.getAll 5).length = 5 ∧
      (s.count < 5 →
        (s.getAll 5).take (5 - s.count) = List.replicate (5 - s.count) 0) ∧
      (∀ v : Int, (s.push 5 v).getAll 5 = (s.getAll 5).drop 1 ++ [v])) ∧
    (∀ (s : SensorRingBuffer) (v : Int), s.wf 5 → (s.push 5 v).wf 5) := by
  refine ⟨by decide, by decide, by decide, ?_, ?_⟩
  · rintro ⟨buf, hd, cnt⟩ ⟨hlen, hcase⟩
    simp only at hlen hcase
    rcases buf with _ | ⟨a, buf⟩
    · simp at hlen
    rcases buf with _ | ⟨b, buf⟩
    · simp at hlen
    rcases buf with _ | ⟨c, buf⟩
    · simp at hlen
    rcases buf with _ | ⟨d, buf⟩
    · simp at hlen
    rcases buf with _ | ⟨e, buf⟩
    · simp at hlen
    rcases buf with _ | ⟨f, buf⟩
    swap
    · simp at hlen
    rcases hcase with ⟨h1, h2⟩ | ⟨h1, h2⟩
    · subst h2
      interval_cases hd <;>
        exact ⟨by norm_num [SensorRingBuffer.getAll],
          fun _ => by norm_num [SensorRingBuffer.getAll],
          fun v => by norm_num [SensorRingBuffer.push, SensorRingBuffer.getAll,
            List.range_succ]⟩
    · subst h1
      interval_cases hd <;>
        exact ⟨by norm_num [SensorRingBuffer.getAll],
          fun h => absurd h (lt_irrefl 5),
          fun v => by norm_num [SensorRingBuffer.push, SensorRingBuffer.getAll,
            List.range_succ]⟩
  · rintro ⟨buf, hd, cnt⟩ v ⟨hlen, hcase⟩
    simp only at hlen hcase
    unfold SensorRingBuffer.wf SensorRingBuffer.push
    constructor
    · simp [List.length_set, hlen]
    · simp only
      split <;> omega

/-- Witness for the amended claim C8: the general clauses applied to the
concrete full state reached by the five pushes `[10,20,30,40,50]`. -/
theorem claim_C8_witness :
    ((SensorRingBuffer.mk [10, 20, 30, 40, 50] 0 5).getAll 5).length = 5 ∧
    ((SensorRingBuffer.mk [10, 20, 30, 40, 50] 0 5).push 5 60).getAll 5 =
      ((SensorRingBuffer.mk [10, 20, 30, 40, 50] 0 5).getAll 5).drop 1 ++ [60] ∧
    ((SensorRingBuffer.mk [10, 20, 30, 40, 50] 0 5).push 5 60).wf 5 :=
  ⟨((claim_C8.2.2.2.1 (SensorRingBuffer.mk [10, 20, 30, 40, 50] 0 5))
      (by constructor
          · rfl
          · exact Or.inr ⟨rfl, by decide⟩)).1,
   ((claim_C8.2.2.2.1 (SensorRingBuffer.mk [10, 20, 30, 40, 50] 0 5))
      (by constructor
          · rfl
          · exact Or.inr ⟨rfl, by decide⟩)).2.2 60,
   claim_C8.2.2.2.2 (SensorRingBuffer.mk [10, 20, 30, 40, 50] 0 5) 60
      (by constructor
          · rfl
          · exact Or.inr ⟨rfl, by decide⟩)⟩

/-! ## Correctness of the bubble sort used by the median filter -/

/-- A bounded bubble pass permutes its input. -/
theorem bubblePass_perm {α : Type} [LinearOrder α] :
    ∀ (k : Nat) (l : List α), List.Perm (bubblePass k l) l := by
  intro k
  induction k with
  | zero =>
      intro l
      exact List.Perm.refl l
  | succ k ih =>
      intro l
      rcases l with _ | ⟨a, _ | ⟨b, t⟩⟩
      · exact List.Perm.refl _
      · exact List.Perm.refl _
      · simp only [bubblePass]
        split
        · exact (List.Perm.cons b (ih (a :: t))).trans (List.Perm.swap a b t)
        · exact List.Perm.cons a (ih (b :: t))

/-- A pass whose bound covers exactly the front part of an append leaves the
back part untouched. -/
theorem bubblePass_append {α : Type} [LinearOrder α] :
    ∀ (k : Nat) (front back : List α), front.length = k + 1 →
      bubblePass k (front ++ back) = bubblePass k front ++ back := by
  intro k
  induction k with
  | zero =>
      intro front back _
      rfl
  | succ k ih =>
      intro front back h
      rcases front with _ | ⟨a, _ | ⟨b, f⟩⟩
      · simp at h
      · simp at h
      · show bubblePass (k + 1) (a :: b :: (f ++ back)) = _
        simp only [bubblePass]
        split
        · rw [show a :: (f ++ back) = (a :: f) ++ back from rfl,
            ih (a :: f) back (by simpa using h)]
          rfl
        · rw [show b :: (f ++ back) = (b :: f) ++ back from rfl,
            ih (b :: f) back (by simpa using h)]
          rfl

/-- A full bubble pass moves a maximum of the list to its last position. -/
theorem bubblePass_last_max {α : Type} [LinearOrder α] :
    ∀ (l : List α) (a : α), ∃ t m,
      bubblePass l.length (a :: l) = t ++ [m] ∧ ∀ x ∈ a :: l, x ≤ m := by
  intro l
  induction l with
  | nil =>
      intro a
      refine ⟨[], a, rfl, ?_⟩
      intro x hx
      rw [List.mem_singleton.mp hx]
  | cons b t ih =>
      intro a
      show ∃ t2 m, bubblePass (t.length + 1) (a :: b :: t) = _ ∧ _
      simp only [bubblePass]
      split
      · next hba =>
          obtain ⟨t2, m, heq, hmax⟩ := ih a
          refine ⟨b :: t2, m, by rw [heq]; rfl, ?_⟩
          intro x hx
          rcases List.mem_cons.mp hx with hxa | hx2
          · subst hxa
            exact hmax x (List.mem_cons_self x t)
          · rcases List.mem_cons.mp hx2 with hxb | hxt
            · subst hxb
              exact le_trans (le_of_lt hba) (hmax a (List.mem_cons_self a t))
            · exact hmax x (List.mem_cons_of_mem a hxt)
      · next hba =>
          obtain ⟨t2, m, heq, hmax⟩ := ih b
          refine ⟨a :: t2, m, by rw [heq]; rfl, ?_⟩
          intro x hx
          rcases List.mem_cons.mp hx with hxa | hx2
          · subst hxa
            exact le_trans (not_lt.mp hba) (hmax b (List.mem_cons_self b t))
          · exact hmax x hx2

/-- The shrinking-bound pass sequence permutes its input. -/
theorem sortPasses_perm {α : Type} [LinearOrder α] :
    ∀ (k : Nat) (l : List α), List.Perm (sortPasses k l) l := by
  intro k
  induction k with
  | zero => intro l; exact List.Perm.refl l
  | succ k ih =>
      intro l
      exact (ih (bubblePass (k + 1) l)).trans (bubblePass_perm (k + 1) l)

/-- Main sorting invariant: running the pass sequence on `front ++ back`,
where the bound covers `front`, `back` is already sorted, and everything in
`front` is bounded by everything in `back`, yields a sorted list. -/
theorem sortPasses_sorted {α : Type} [LinearOrder α] :
    ∀ (k : Nat) (front back : List α), front.length = k + 1 →
      back.Sorted (· ≤ ·) → (∀ x ∈ front, ∀ y ∈ back, x ≤ y) →
      (sortPasses k (front ++ back)).Sorted (· ≤ ·) := by
  intro k
  induction k with
  | zero =>
      intro front back hlen hback hcross
      rcases front with _ | ⟨f, _ | ⟨g, rest⟩⟩
      · simp at hlen
      · show (f :: back).Sorted (· ≤ ·)
        exact List.sorted_cons.mpr
          ⟨fun y hy => hcross f (List.mem_singleton_self f) y hy, hback⟩
      · simp at hlen
  | succ k ih =>
      intro front back hlen hback hcross
      show (sortPasses k (bubblePass (k + 1) (front ++ back))).Sorted (· ≤ ·)
      rw [bubblePass_append (k + 1) front back hlen]
      rcases front with _ | ⟨a, l⟩
      · simp at hlen
      have hlb : l.length = k + 1 := by simpa using hlen
      obtain ⟨t2, m, heq, hmax⟩ := bubblePass_last_max l a
      rw [hlb] at heq
      have hperm : List.Perm (t2 ++ [m]) (a :: l) := by
        rw [← heq, ← hlb]
        exact bubblePass_perm l.length (a :: l)
      have hmem : ∀ x ∈ t2, x ∈ a :: l := by
        intro x hx
        exact hperm.mem_iff.mp (List.mem_append_left _ hx)
      have hmmem : m ∈ a :: l :=
        hperm.mem_iff.mp (List.mem_append_right _ (List.mem_singleton_self m))
      rw [heq, List.append_assoc]
      apply ih t2 (m :: back)
      · have hl2 := hperm.length_eq
        simp at hl2
        omega
      · exact List.sorted_cons.mpr ⟨fun y hy => hcross m hmmem y hy, hback⟩
      · intro x hx y hy
        rcases List.mem_cons.mp hy with hym | hyb
        · subst hym
          exact hmax x (hmem x hx)
        · exact hcross x (hmem x hx) y hyb

/-- The embedded `sortArray` sorts its input. -/
theorem sortArray_sorted {α : Type} [LinearOrder α] (l : List α) :
    (sortArray l).Sorted (· ≤ ·) := by
  rcases l with _ | ⟨a, t⟩
  · exact List.sorted_nil
  · have := sortPasses_sorted t.length (a :: t) [] (by simp)
      List.sorted_nil (by simp)
    simpa [sortArray] using this

/-- The embedded `sortArray` permutes its input. -/
theorem sortArray_perm {α : Type} [LinearOrder α] (l : List α) :
    List.Perm (sortArray l) l :=
  sortPasses_perm (l.length - 1) l

/-! ## Behaviour of the scratch-copy loop -/

/-- Taking one element past an in-bounds overwrite splits off the new
element. -/
theorem take_set_succ {α : Type} (s : List α) (k : Nat) (x : α)
    (h : k < s.length) :
    (s.set k x).take (k + 1) = s.take k ++ [x] := by
  induction s generalizing k with
  | nil => simp at h
  | cons a t ih =>
      cases k with
      | zero => simp
      | succ j =>
          simp only [List.set_cons_succ, List.take_succ_cons, List.cons_append]
          rw [ih j (by simpa using h)]

/-- A successful copy leaves the scratch length unchanged. -/
theorem copyScratch_length {α : Type} (values : List α) :
    ∀ (n : Nat) (scratch s : List α), copyScratch values n scratch = some s →
      s.length = scratch.length := by
  intro n
  induction n with
  | zero =>
      intro scratch s h
      simp only [copyScratch, Option.some.injEq] at h
      rw [← h]
  | succ k ih =>
      intro scratch s h
      cases hres : copyScratch values k scratch with
      | none => simp [copyScratch, hres] at h
      | some s0 =>
          cases hv : getChecked values k with
          | none => simp [copyScratch, hres, hv] at h
          | some v =>
              simp only [copyScratch, hres, hv, setChecked] at h
              split at h
              · simp only [Option.some.injEq] at h
                rw [← h]
                simp only [List.length_set]
                exact ih scratch s0 hres
              · simp at h

/-- When both the input and the scratch array can hold `n` elements, the
copy loop succeeds, preserves the scratch length, and fills the first `n`
scratch entries with the first `n` input values. -/
theorem copyScratch_some {α : Type} (values : List α) :
    ∀ (n : Nat) (scratch : List α), n ≤ scratch.length → n ≤ values.length →
      ∃ s, copyScratch values n scratch = some s ∧
        s.length = scratch.length ∧ s.take n = values.take n := by
  intro n
  induction n with
  | zero =>
      intro scratch _ _
      exact ⟨scratch, rfl, rfl, by simp⟩
  | succ k ih =>
      intro scratch hn hv
      obtain ⟨s0, hs0, hlen0, htake0⟩ := ih scratch (by omega) (by omega)
      have hkv : k < values.length := by omega
      have hks : k < s0.length := by omega
      have hg : getChecked values k = some values[k] :=
        List.getElem?_eq_getElem hkv
      refine ⟨s0.set k values[k], ?_, by simp [hlen0], ?_⟩
      · simp only [copyScratch, hs0, hg, setChecked]
        rw [if_pos hks]
      · rw [take_set_succ s0 k _ hks, htake0, List.take_succ,
          List.getElem?_eq_getElem hkv]
        rfl

/-- When `n` exceeds the scratch capacity the copy loop aborts: the write at
index `scratch.length` (if reached) is out of bounds. -/
theorem copyScratch_none {α : Type} (values : List α) :
    ∀ (n : Nat) (scratch : List α), scratch.length < n →
      copyScratch values n scratch = none := by
  intro n
  induction n with
  | zero =>
      intro scratch h
      exact absurd h (Nat.not_lt_zero _)
  | succ k ih =>
      intro scratch h
      by_cases hk : scratch.length < k
      · simp only [copyScratch, ih scratch hk]
      · cases hres : copyScratch values k scratch with
        | none => simp [copyScratch, hres]
        | some s0 =>
            cases hv : getChecked values k with
            | none => simp [copyScratch, hres, hv]
            | some v =>
                have hl0 : s0.length = scratch.length :=
                  copyScratch_length values k scratch s0 hres
                simp only [copyScratch, hres, hv, setChecked]
                rw [if_neg (by omega)]

/-- Evaluation of the shared median body within capacity: the result is the
middle element (or the `avg2` of the two middle elements) of the sorted copy
of the first `n` input values. -/
theorem medianBody_spec {α : Type} [LinearOrder α] (zero : α)
    (avg2 : α → α → α) (values : List α) (n : Nat)
    (h5 : n ≤ MEDIAN_SAMPLE_COUNT) (hlen : n ≤ values.length) (hn : n ≠ 0) :
    medianBody zero avg2 values n =
      some (if n % 2 = 0 then
              avg2 ((sortArray (values.take n)).getD (n / 2 - 1) zero)
                ((sortArray (values.take n)).getD (n / 2) zero)
            else (sortArray (values.take n)).getD (n / 2) zero) := by
  obtain ⟨s, hs, hslen, hstake⟩ := copyScratch_some values n
    (List.replicate MEDIAN_SAMPLE_COUNT zero) (by simpa using h5) hlen
  have hsort_len : (sortArray (values.take n)).length = n := by
    have hp := (sortArray_perm (values.take n)).length_eq
    rw [hp, List.length_take]
    omega
  have hread : ∀ i, i < n →
      getChecked (sortArray (values.take n) ++ s.drop n) i =
        some ((sortArray (values.take n)).getD i zero) := by
    intro i hi
    unfold getChecked
    rw [List.getElem?_append_left (by omega), List.getElem?_eq_getElem (by omega),
      List.getD_eq_getElem _ zero (by omega)]
  unfold medianBody
  rw [if_neg hn]
  simp only [hs, hstake]
  split
  · next heven =>
      rw [hread (n / 2 - 1) (by omega), hread (n / 2) (by omega)]
  · next hodd =>
      rw [hread (n / 2) (by omega)]

/-- Evaluation of the shared median body beyond capacity: the copy loop
aborts with an out-of-bounds scratch access. -/
theorem medianBody_none {α : Type} [LinearOrder α] (zero : α)
    (avg2 : α → α → α) (values : List α) (n : Nat)
    (h : MEDIAN_SAMPLE_COUNT < n) :
    medianBody zero avg2 values n = none := by
  unfold medianBody
  rw [if_neg (by omega), copyScratch_none values n _ (by simpa using h)]

/-! ## Claim C9: the median filter -/

/-- Counterexample to claim C9 as stated: the claimed example medians use
K = 10 and K = 9 samples, but the scratch array holds only
`MEDIAN_SAMPLE_COUNT = 5` elements, so both calls run off the end of the
array (modelled as `none`) instead of returning 5.5 and 5. -/
theorem claim_C9_counterexample :
    medianFloat [1, 2, 3, 4, 5, 6, 7, 8, 9, 10] 10 = none ∧
    ¬ medianFloat [1, 2, 3, 4, 5, 6, 7, 8, 9, 10] 10 = some (11 / 2) ∧
    medianInt [1, 2, 3, 4, 5, 6, 7, 8, 9] 9 = none ∧
    ¬ medianInt [1, 2, 3, 4, 5, 6, 7, 8, 9] 9 = some 5 := by
  have h1 : medianFloat [1, 2, 3, 4, 5, 6, 7, 8, 9, 10] 10 = none :=
    medianBody_none _ _ _ _ (by decide)
  have h2 : medianInt [1, 2, 3, 4, 5, 6, 7, 8, 9] 9 = none :=
    medianBody_none _ _ _ _ (by decide)
  refine ⟨h1, by rw [h1]; simp, h2, by rw [h2]; simp⟩

/-- Claim C9 (amended): for every list of K raw values with
K ≤ MEDIAN_SAMPLE_COUNT = 5, the median filter sorts a private copy of the
first K values (the embedded bubble sort produces a sorted permutation) and
returns the single middle element when K is odd, or the average of the two
middle elements when K is even (C integer division for `medianInt`, exact
division for `medianFloat`); K = 0 returns 0 / 0.0.  Within capacity:
`medianInt [1,2,3,4,5] 5 = 3` and `medianFloat [1,2,3,4] 4 = 2.5`.  (The
originally claimed K = 10 and K = 9 examples exceed the scratch capacity,
see the counterexample.) -/
theorem claim_C9 :
    (∀ values : List Int, medianInt values 0 = some 0) ∧
    (∀ values : List ℚ, medianFloat values 0 = some 0) ∧
    (∀ (values : List Int) (n : Nat), n ≤ MEDIAN_SAMPLE_COUNT →
      n ≤ values.length → n ≠ 0 →
      (sortArray (values.take n)).Sorted (· ≤ ·) ∧
      List.Perm (sortArray (values.take n)) (values.take n) ∧
      medianInt values n =
        some (if n % 2 = 0 then
                Int.tdiv ((sortArray (values.take n)).getD (n / 2 - 1) 0 +
                  (sortArray (values.take n)).getD (n / 2) 0) 2
              else (sortArray (values.take n)).getD (n / 2) 0)) ∧
    (∀ (values : List ℚ) (n : Nat), n ≤ MEDIAN_SAMPLE_COUNT →
      n ≤ values.length → n ≠ 0 →
      (sortArray (values.take n)).Sorted (· ≤ ·) ∧
      List.Perm (sortArray (values.take n)) (values.take n) ∧
      medianFloat values n =
        some (if n % 2 = 0 then
                ((sortArray (values.take n)).getD (n / 2 - 1) 0 +
                  (sortArray (values.take n)).getD (n / 2) 0) / 2
              else (sortArray (values.take n)).getD (n / 2) 0)) ∧
    medianInt [1, 2, 3, 4, 5] 5 = some 3 ∧
    medianFloat [1, 2, 3, 4] 4 = some (5 / 2) := by
  refine ⟨fun values => rfl, fun values => rfl, ?_, ?_, by decide, ?_⟩
  · intro values n h5 hlen hn
    exact ⟨sortArray_sorted _, sortArray_perm _,
      medianBody_spec 0 (fun a b => Int.tdiv (a + b) 2) values n h5 hlen hn⟩
  · intro values n h5 hlen hn
    exact ⟨sortArray_sorted _, sortArray_perm _,
      medianBody_spec 0 (fun a b => (a + b) / 2) values n h5 hlen hn⟩
  · have hsort : sortArray ([1, 2, 3, 4] : List ℚ) = [1, 2, 3, 4] := by
      norm_num [sortArray, sortPasses, bubblePass]
    have h := medianBody_spec (0 : ℚ) (fun a b => (a + b) / 2) [1, 2, 3, 4] 4
      (by decide) (by decide) (by decide)
    rw [show ([1, 2, 3, 4] : List ℚ).take 4 = [1, 2, 3, 4] from rfl, hsort] at h
    norm_num [List.getD] at h
    exact h

/-- Witness for the amended claim C9: the general clauses applied at
`medianInt [3,1,2] 3` (odd count) and `medianFloat [1,4] 2` (even count). -/
theorem claim_C9_witness :
    ((sortArray (([3, 1, 2] : List Int).take 3)).Sorted (· ≤ ·) ∧
      List.Perm (sortArray (([3, 1, 2] : List Int).take 3))
        (([3, 1, 2] : List Int).take 3) ∧
      medianInt [3, 1, 2] 3 =
        some (if 3 % 2 = 0 then
                Int.tdiv ((sortArray (([3, 1, 2] : List Int).take 3)).getD
                    (3 / 2 - 1) 0 +
                  (sortArray (([3, 1, 2] : List Int).take 3)).getD (3 / 2) 0) 2
              else (sortArray (([3, 1, 2] : List Int).take 3)).getD (3 / 2) 0)) ∧
    ((sortArray (([1, 4] : List ℚ).take 2)).Sorted (· ≤ ·) ∧
      List.Perm (sortArray (([1, 4] : List ℚ).take 2))
        (([1, 4] : List ℚ).take 2) ∧
      medianFloat [1, 4] 2 =
        some (if 2 % 2 = 0 then
                ((sortArray (([1, 4] : List ℚ).take 2)).getD (2 / 2 - 1) 0 +
                  (sortArray (([1, 4] : List ℚ).take 2)).getD (2 / 2) 0) / 2
              else (sortArray (([1, 4] : List ℚ).take 2)).getD (2 / 2) 0)) :=
  ⟨claim_C9.2.2.1 [3, 1, 2] 3 (by decide) (by decide) (by decide),
   claim_C9.2.2.2.1 [1, 4] 2 (by decide) (by decide) (by decide)⟩

/-! ## Claim C10: scratch-array bounds of the median filter -/

/-- Claim C10: every scratch-array access of `medianInt` / `medianFloat`
stays in bounds exactly when the sample count is at most
`MEDIAN_SAMPLE_COUNT = 5`: under that precondition the embedded functions
are total (`isSome`), while every call with a larger count runs off the end
of the scratch array (modelled as `none`). -/
theorem claim_C10 :
    (∀ (values : List Int) (n : Nat), n ≤ MEDIAN_SAMPLE_COUNT →
      n ≤ values.length → (medianInt values n).isSome = true) ∧
    (∀ (values : List ℚ) (n : Nat), n ≤ MEDIAN_SAMPLE_COUNT →
      n ≤ values.length → (medianFloat values n).isSome = true) ∧
    (∀ (values : List Int) (n : Nat), MEDIAN_SAMPLE_COUNT < n →
      medianInt values n = none) ∧
    (∀ (values : List ℚ) (n : Nat), MEDIAN_SAMPLE_COUNT < n →
      medianFloat values n = none) := by
  refine ⟨?_, ?_, ?_, ?_⟩
  · intro values n h5 hlen
    by_cases hn : n = 0
    · subst hn; rfl
    · rw [show medianInt values n = _ from
        medianBody_spec 0 (fun a b => Int.tdiv (a + b) 2) values n h5 hlen hn]
      rfl
  · intro values n h5 hlen
    by_cases hn : n = 0
    · subst hn; rfl
    · rw [show medianFloat values n = _ from
        medianBody_spec 0 (fun a b => (a + b) / 2) values n h5 hlen hn]
      rfl
  · intro values n h
    exact medianBody_none _ _ _ _ h
  · intro values n h
    exact medianBody_none _ _ _ _ h

/-- Witness for claim C10: a within-capacity call on each type is total, an
over-capacity call on each type aborts. -/
theorem claim_C10_witness :
    (medianInt [1, 2, 3, 4, 5] 5).isSome = true ∧
    medianInt [1, 2, 3, 4, 5, 6] 6 = none ∧
    (medianFloat [1, 2] 2).isSome = true ∧
    medianFloat [1, 2, 3, 4, 5, 6] 6 = none :=
  ⟨claim_C10.1 [1, 2, 3, 4, 5] 5 (by decide) (by decide),
   claim_C10.2.2.1 [1, 2, 3, 4, 5, 6] 6 (by decide),
   claim_C10.2.1 [1, 2] 2 (by decide) (by decide),
   claim_C10.2.2.2 [1, 2, 3, 4, 5, 6] 6 (by decide)⟩

end Chamber
